import Mathlib

/-!
The flat ESLint configuration of `eslint.config.js`.

A shallow embedding of the flat ESLint configuration exported by
`eslint.config.js` and the properties of the list it builds.

The file is one expression:

    tseslint.defineConfig(
      js.configs.recommended,
      ...tseslint.configs.recommended,
      { languageOptions: { globals: { ...globals.node, ...globals.browser } } },
      { ignores: ["**/dist/", "**/node_modules/"] }
    )

JavaScript objects are embedded as property lists in insertion order, and the
object-spread `{ ...a, ...b }` follows ECMAScript's `CopyDataProperties`:
every own key of the source is read and written to the target with
`CreateDataProperty`, which overwrites the value of a key that is already
there and appends a key that is not.

The expression is embedded twice. `eslintConfig` gives the exported list as a
value, objects written out in full. `evalConfig` gives the evaluation in a
heap, where every literal makes a new object and a value may be a reference;
it is what determinism is stated on, and its result reads as the list of
`eslintConfig`.
-/

namespace EslintConfig

/-! ## JavaScript values -/

/-- The JavaScript values a configuration fragment is made of. Objects hold
their own enumerable string-keyed properties in insertion order; numbers are
kept to the integers, which is all a rule severity or option needs here. -/
inductive JSValue where
  | undefined : JSValue
  | null : JSValue
  | bool (b : Bool) : JSValue
  | num (n : Int) : JSValue
  | str (s : String) : JSValue
  | array (elems : List JSValue) : JSValue
  | object (props : List (String × JSValue)) : JSValue

/-- The own properties of an object, in insertion order. -/
abbrev Props := List (String × JSValue)

/-- The `[[GetOwnProperty]]` lookup: the value stored under `key`, if the
object has that own property. -/
def getOwn : Props → String → Option JSValue
  | [], _ => none
  | (k, v) :: rest, key => if k = key then some v else getOwn rest key

/-- The `[[OwnPropertyKeys]]` list: the own keys in insertion order. -/
def ownKeys (o : Props) : List String :=
  o.map Prod.fst

/-- The abstract operation `CreateDataProperty(target, key, v)`: overwrite
the value when `key` is already an own property (its position is kept), append
the property otherwise. -/
def createDataProperty : Props → String → JSValue → Props
  | [], key, v => [(key, v)]
  | (k, w) :: rest, key, v =>
    if k = key then (k, v) :: rest else (k, w) :: createDataProperty rest key v

/-- The abstract operation `CopyDataProperties(target, source)`: what one
`...source` item of an object literal does. For every own key of `source`, in
order, the value is read from `source` and defined on `target`. -/
def copyDataProperties (target source : Props) : Props :=
  (ownKeys source).foldl
    (fun t key =>
      match getOwn source key with
      | some v => createDataProperty t key v
      | none => t)
    target

/-- Property read on a value: `v[key]` when `v` is an object that has the own
property, nothing otherwise. -/
def JSValue.getProp : JSValue → String → Option JSValue
  | .object props, key => getOwn props key
  | _, _ => none

/-- The own keys of a value (`Object.keys`); a non-object has none. -/
def JSValue.keys : JSValue → List String
  | .object props => ownKeys props
  | _ => []

/-! ## The configuration -/

/-- The object literal `{ ...globals.node, ...globals.browser }`: an empty
object onto which the node set and then the browser set are spread. -/
def globalsUnion (globalsNode globalsBrowser : Props) : Props :=
  copyDataProperties (copyDataProperties [] globalsNode) globalsBrowser

/-- The third argument of the call:
`{ languageOptions: { globals: { ...globals.node, ...globals.browser } } }`. -/
def overrideFragment (globalsNode globalsBrowser : Props) : JSValue :=
  .object [("languageOptions",
    .object [("globals", .object (globalsUnion globalsNode globalsBrowser))])]

/-- The fourth argument of the call:
`{ ignores: ["**/dist/", "**/node_modules/"] }`. -/
def ignoresFragment : JSValue :=
  .object [("ignores", .array [.str "**/dist/", .str "**/node_modules/"])]

/-- Modelled from the spec: `tseslint.defineConfig` belongs to the
`typescript-eslint` package and its code is not part of this repository. The
specification describes the aggregator as composing the fragments it is given
"into a single ordered configuration list" without interpreting their
contents, so the helper hands back its arguments, in order. -/
def defineConfig (configs : List JSValue) : List JSValue :=
  configs

/-- The default export of `eslint.config.js`. The imported values are the
parameters: `js.configs.recommended`, the array `tseslint.configs.recommended`
(spread into the argument list), `globals.node` and `globals.browser`. -/
def eslintConfig (jsConfigsRecommended : JSValue)
    (tseslintConfigsRecommended : List JSValue)
    (globalsNode globalsBrowser : Props) : List JSValue :=
  defineConfig
    ([jsConfigsRecommended] ++ tseslintConfigsRecommended ++
      [overrideFragment globalsNode globalsBrowser, ignoresFragment])

/-- The `languageOptions.globals` object of a fragment, when it is there and
an object. -/
def languageOptionsGlobals (fragment : JSValue) : Option Props :=
  match fragment.getProp "languageOptions" with
  | some languageOptions =>
    match languageOptions.getProp "globals" with
    | some (.object globals) => some globals
    | _ => none
  | none => none

/-! ## Ignore patterns

The matcher that applies the `ignores` globs is part of the external linting
engine. What follows is the reading of the two glob forms that the
specification gives. -/

/-- Modelled from the spec: paths and globs are read segment by segment;
this splits a character sequence at every `/`. -/
def splitSlash (cs : List Char) : List (List Char) :=
  cs.foldr
    (fun c acc =>
      if c = '/' then [] :: acc
      else
        match acc with
        | [] => [[c]]
        | seg :: rest => (c :: seg) :: rest)
    [[]]

/-- Modelled from the spec: the `/`-separated segments of a path or of a
pattern. -/
def pathSegments (path : String) : List String :=
  (splitSlash path.data).map String.mk

/-- Modelled from the spec: one segment of a glob, `**` or a literal name. -/
inductive PatternSegment where
  | globstar : PatternSegment
  | literal (name : String) : PatternSegment
  deriving DecidableEq

/-- Modelled from the spec: a parsed glob, its segments and whether it ended
in `/`. -/
structure IgnorePattern where
  segments : List PatternSegment
  directory : Bool
  deriving DecidableEq

/-- Modelled from the spec: read one segment of a glob. -/
def parseSegment (s : String) : PatternSegment :=
  if s = "**" then .globstar else .literal s

/-- Modelled from the spec: read a glob string; a trailing `/` makes it a
directory pattern. -/
def parsePattern (pattern : String) : IgnorePattern :=
  let segs := pathSegments pattern
  if segs.getLast? = some "" then
    { segments := segs.dropLast.map parseSegment, directory := true }
  else
    { segments := segs.map parseSegment, directory := false }

/-- Modelled from the spec: the glob matcher of the external linting engine,
on segments. `**` stands for any number of leading path segments (none
included), a literal segment for the segment of that name. -/
def matchSegments : List PatternSegment → List String → Bool
  | [], path => path.isEmpty
  | .globstar :: ps, path => path.tails.any (fun suffix => matchSegments ps suffix)
  | .literal name :: ps, path =>
    match path with
    | [] => false
    | s :: rest => decide (s = name) && matchSegments ps rest

/-- Modelled from the spec: the directory segments of a path, which are all
its segments but the last one (that one names the candidate itself). -/
def directorySegments (path : String) : List String :=
  (pathSegments path).dropLast

/-- Modelled from the spec: the directories a path lies under, outermost
first, which are the non-empty prefixes of its directory segments. -/
def ancestors (path : String) : List (List String) :=
  (directorySegments path).inits.tail

/-- Modelled from the spec: a pattern with a trailing `/` names a directory
and excludes its whole subtree, so it ignores a path when it matches one of
the directories the path lies under. The specification says nothing of
patterns without a trailing `/` (the configuration has none); they are matched
against the whole path. -/
def patternIgnores (pattern : IgnorePattern) (path : String) : Bool :=
  if pattern.directory then
    (ancestors path).any (fun dir => matchSegments pattern.segments dir)
  else
    matchSegments pattern.segments (pathSegments path)

/-- The glob strings held by the `ignores` array of a fragment. -/
def ignorePatterns (fragment : JSValue) : List String :=
  match fragment.getProp "ignores" with
  | some (.array elems) =>
    elems.filterMap (fun e => match e with | .str s => some s | _ => none)
  | _ => []

/-- Modelled from the spec: a path is ignored by a fragment when one of the
fragment's ignore patterns ignores it. -/
def isIgnored (fragment : JSValue) (path : String) : Bool :=
  (ignorePatterns fragment).any (fun p => patternIgnores (parsePattern p) path)


/-! ## The running program

In the running program an object has an identity. Every object or array
literal of `eslint.config.js` makes a new object each time the file is
evaluated, and the imported fragments and global sets may hold references to
objects that already exist. The evaluation is embedded once more with that
identity made explicit: values are primitives or references into a heap, and
the evaluation takes the heap it starts from and hands back the heap it
leaves. -/

/-- A value as the running program holds it: a primitive, or a reference to an
object or an array on the heap. -/
inductive HValue where
  | undefined : HValue
  | null : HValue
  | bool (b : Bool) : HValue
  | num (n : Int) : HValue
  | str (s : String) : HValue
  | ref (address : Nat) : HValue
  deriving DecidableEq

/-- The own properties of an object on the heap, in insertion order. -/
abbrev HProps := List (String × HValue)

/-- What a heap cell holds: an array or a plain object. -/
inductive HObject where
  | array (elems : List HValue) : HObject
  | object (props : HProps) : HObject
  deriving DecidableEq

/-- The heap: the cell at index `a` is the object with address `a`. -/
abbrev Heap := List HObject

/-- Creation of a new object: it gets the next free address, and no cell that
exists is touched. -/
def alloc (h : Heap) (o : HObject) : HValue × Heap :=
  (.ref h.length, h ++ [o])

/-- The `[[GetOwnProperty]]` lookup of `getOwn`, for property lists over any
type of value. -/
def getOwnOf {α : Type} : List (String × α) → String → Option α
  | [], _ => none
  | (k, v) :: rest, key => if k = key then some v else getOwnOf rest key

/-- The `[[OwnPropertyKeys]]` list of `ownKeys`, for property lists over any
type of value. -/
def ownKeysOf {α : Type} (o : List (String × α)) : List String :=
  o.map Prod.fst

/-- The abstract operation `CreateDataProperty` of `createDataProperty`, for
property lists over any type of value. -/
def createDataPropertyOf {α : Type} : List (String × α) → String → α → List (String × α)
  | [], key, v => [(key, v)]
  | (k, w) :: rest, key, v =>
    if k = key then (k, v) :: rest else (k, w) :: createDataPropertyOf rest key v

/-- The abstract operation `CopyDataProperties` of `copyDataProperties`, for
property lists over any type of value. -/
def copyDataPropertiesOf {α : Type} (target source : List (String × α)) :
    List (String × α) :=
  (ownKeysOf source).foldl
    (fun t key =>
      match getOwnOf source key with
      | some v => createDataPropertyOf t key v
      | none => t)
    target

/-- Modelled from the spec: `tseslint.defineConfig` on the values of the
running program. As for `defineConfig`, the helper hands back its arguments,
in order. -/
def heapDefineConfig (configs : List HValue) : List HValue :=
  configs

/-- The evaluation of `eslint.config.js` in a heap `h`. The parameters are
the values the file imports: `js.configs.recommended`, the elements of the
array `tseslint.configs.recommended`, and the own properties of `globals.node`
and of `globals.browser`; a value among them may be a reference into `h`. The five
literals of the file make five new objects: the spread
`{ ...globals.node, ...globals.browser }`, the `languageOptions` object that
holds it, the override fragment that holds that one, the `ignores` array and
the fragment that holds it. An object is created here once its content is
known, so the new addresses are handed out from the inside of a literal to
its outside. The result is the exported list and the heap after the
evaluation. -/
def evalConfig (h : Heap) (jsConfigsRecommended : HValue)
    (tseslintConfigsRecommended : List HValue) (globalsNode globalsBrowser : HProps) :
    List HValue × Heap :=
  let (globals, h1) :=
    alloc h (.object (copyDataPropertiesOf (copyDataPropertiesOf [] globalsNode)
      globalsBrowser))
  let (languageOptions, h2) := alloc h1 (.object [("globals", globals)])
  let (overrideRef, h3) := alloc h2 (.object [("languageOptions", languageOptions)])
  let (patterns, h4) := alloc h3 (.array [.str "**/dist/", .str "**/node_modules/"])
  let (ignoresRef, h5) := alloc h4 (.object [("ignores", patterns)])
  (heapDefineConfig
    ([jsConfigsRecommended] ++ tseslintConfigsRecommended ++ [overrideRef, ignoresRef]), h5)

/-- The five cells one evaluation adds to a heap of `len` cells, in the order
of their addresses. -/
def newCells (len : Nat) (globalsNode globalsBrowser : HProps) : List HObject :=
  [.object (copyDataPropertiesOf (copyDataPropertiesOf [] globalsNode) globalsBrowser),
   .object [("globals", .ref len)],
   .object [("languageOptions", .ref (len + 1))],
   .array [.str "**/dist/", .str "**/node_modules/"],
   .object [("ignores", .ref (len + 3))]]

/-! ### Structural equality

Two values of the running program are structurally equal when they look the
same to any observer that follows references but cannot compare addresses. The
comparison is made to a depth: at depth 0 nothing is inspected, at depth
`d + 1` the two values are inspected and what they hold is compared at depth
`d`. Structural equality is equality at every depth; that also covers objects
that reach themselves. -/

/-- Both lists have the same length and `r` holds of their elements, position
by position. -/
def allPairs {α β : Type} (r : α → β → Bool) : List α → List β → Bool
  | [], [] => true
  | x :: xs, y :: ys => r x y && allPairs r xs ys
  | _, _ => false

/-- One level of the comparison of a value in heap `h1` with a value in heap
`h2`: equal primitives, or two references to arrays of the same length, or to
objects with the same keys in the same order, whose parts are compared with
`below`. A reference to no cell equals nothing. -/
def sameAt (below : HValue → HValue → Bool) (h1 h2 : Heap) : HValue → HValue → Bool
  | .undefined, .undefined => true
  | .null, .null => true
  | .bool a, .bool b => decide (a = b)
  | .num a, .num b => decide (a = b)
  | .str a, .str b => decide (a = b)
  | .ref a, .ref b =>
    match h1[a]?, h2[b]? with
    | some (.array xs), some (.array ys) => allPairs below xs ys
    | some (.object ps), some (.object qs) =>
      allPairs (fun p q => decide (p.1 = q.1) && below p.2 q.2) ps qs
    | _, _ => false
  | _, _ => false

/-- Structural equality to depth `d` of a value in `h1` and a value in
`h2`. -/
def structEq : Nat → Heap → Heap → HValue → HValue → Bool
  | 0, _, _ => fun _ _ => true
  | d + 1, h1, h2 => sameAt (structEq d h1 h2) h1 h2

/-- Structural equality to depth `d` of two lists of values, element by
element and in order. -/
def valuesEq (d : Nat) (h1 h2 : Heap) (xs ys : List HValue) : Bool :=
  allPairs (structEq d h1 h2) xs ys

/-- Structural equality to depth `d` of two property lists: the same keys in
the same order, with structurally equal values. -/
def propsEq (d : Nat) (h1 h2 : Heap) (ps qs : HProps) : Bool :=
  allPairs (fun p q => decide (p.1 = q.1) && structEq d h1 h2 p.2 q.2) ps qs

/-- One level of reading a value of the running program as a `JSValue`: a
primitive reads as itself, a reference as the array or object it points to,
its parts read with `below`. -/
def denotesAt (below : HValue → JSValue → Bool) (h : Heap) : HValue → JSValue → Bool
  | .undefined, .undefined => true
  | .null, .null => true
  | .bool a, .bool b => decide (a = b)
  | .num a, .num b => decide (a = b)
  | .str a, .str b => decide (a = b)
  | .ref a, .array ys =>
    match h[a]? with
    | some (.array xs) => allPairs below xs ys
    | _ => false
  | .ref a, .object qs =>
    match h[a]? with
    | some (.object ps) =>
      allPairs (fun p q => decide (p.1 = q.1) && below p.2 q.2) ps qs
    | _ => false
  | _, _ => false

/-- The value `v` of heap `h` reads as the `JSValue` `j`, to depth `d`. -/
def denotes : Nat → Heap → HValue → JSValue → Bool
  | 0, _ => fun _ _ => true
  | d + 1, h => denotesAt (denotes d h) h

/-- A list of values of heap `h` reads as a list of `JSValue`s, to depth
`d`. -/
def valuesDenote (d : Nat) (h : Heap) (xs : List HValue) (ys : List JSValue) : Bool :=
  allPairs (denotes d h) xs ys

/-- A property list of heap `h` reads as a property list of `JSValue`s, to
depth `d`. -/
def propsDenote (d : Nat) (h : Heap) (ps : HProps) (qs : Props) : Bool :=
  allPairs (fun p q => decide (p.1 = q.1) && denotes d h p.2 q.2) ps qs

/-- Two property lists with the same keys in the same order and values related
by `R`. -/
def PropsRel {α β : Type} (R : α → β → Prop) (ps : List (String × α))
    (qs : List (String × β)) : Prop :=
  List.Forall₂ (fun p q => p.1 = q.1 ∧ R p.2 q.2) ps qs

/-! ## Lemmas on property lists -/

theorem getOwn_createDataProperty (t : Props) (key : String) (v : JSValue)
    (x : String) :
    getOwn (createDataProperty t key v) x =
      if key = x then some v else getOwn t x := by
  induction t with
  | nil => simp [createDataProperty, getOwn]
  | cons p rest ih =>
    obtain ⟨k, w⟩ := p
    by_cases hk : k = key
    · subst hk
      by_cases hx : k = x <;> simp [createDataProperty, getOwn, hx]
    · by_cases hx : k = x
      · subst hx
        have : ¬ key = k := fun h => hk h.symm
        simp [createDataProperty, getOwn, hk, this]
      · simp [createDataProperty, getOwn, hk, hx, ih]

theorem mem_ownKeys_iff (o : Props) (x : String) :
    x ∈ ownKeys o ↔ ∃ v, getOwn o x = some v := by
  induction o with
  | nil => simp [ownKeys, getOwn]
  | cons p rest ih =>
    obtain ⟨k, w⟩ := p
    by_cases hx : k = x
    · subst hx
      simp [ownKeys, getOwn]
    · have hx2 : ¬ x = k := fun h => hx h.symm
      have ih2 : x ∈ List.map Prod.fst rest ↔ ∃ v, getOwn rest x = some v := ih
      simp only [ownKeys, List.map_cons, List.mem_cons, hx2, false_or, getOwn, hx,
        if_false]
      exact ih2

theorem not_mem_ownKeys_iff (o : Props) (x : String) :
    x ∉ ownKeys o ↔ getOwn o x = none := by
  rw [mem_ownKeys_iff]
  cases getOwn o x <;> simp

/-- Folding the copy step over any key list: a key of the list that the source
defines gets the source's value, every other key keeps the target's. -/
theorem getOwn_foldl_copy (source : Props) (keys : List String) (target : Props)
    (x : String) :
    getOwn
        (keys.foldl
          (fun t key =>
            match getOwn source key with
            | some v => createDataProperty t key v
            | none => t)
          target) x =
      if x ∈ keys then (getOwn source x).orElse (fun _ => getOwn target x)
      else getOwn target x := by
  induction keys generalizing target with
  | nil => simp
  | cons key rest ih =>
    rw [List.foldl_cons, ih]
    by_cases hkx : key = x
    · subst hkx
      cases hs : getOwn source key with
      | none => simp [hs]
      | some v => simp [hs, getOwn_createDataProperty]
    · have hxk : ¬ x = key := fun h => hkx h.symm
      cases hs : getOwn source key with
      | none => simp [hxk]
      | some v => simp [hxk, hkx, getOwn_createDataProperty]

theorem getOwn_copyDataProperties (target source : Props) (x : String) :
    getOwn (copyDataProperties target source) x =
      (getOwn source x).orElse (fun _ => getOwn target x) := by
  unfold copyDataProperties
  rw [getOwn_foldl_copy]
  by_cases hx : x ∈ ownKeys source
  · simp [hx]
  · have hn : getOwn source x = none := (not_mem_ownKeys_iff source x).1 hx
    simp [hx, hn]

/-- The lookup law of `{ ...globals.node, ...globals.browser }`: the browser
set is consulted first, the node set second. -/
theorem getOwn_globalsUnion (n b : Props) (x : String) :
    getOwn (globalsUnion n b) x = (getOwn b x).orElse (fun _ => getOwn n x) := by
  unfold globalsUnion
  rw [getOwn_copyDataProperties, getOwn_copyDataProperties]
  cases getOwn b x <;> cases getOwn n x <;> simp [getOwn]

theorem ownKeys_createDataProperty (t : Props) (key : String) (v : JSValue) :
    ownKeys (createDataProperty t key v) =
      if key ∈ ownKeys t then ownKeys t else ownKeys t ++ [key] := by
  induction t with
  | nil => simp [createDataProperty, ownKeys]
  | cons p rest ih =>
    obtain ⟨k, w⟩ := p
    have ih2 : List.map Prod.fst (createDataProperty rest key v) =
        if key ∈ List.map Prod.fst rest then List.map Prod.fst rest
        else List.map Prod.fst rest ++ [key] := ih
    by_cases hk : k = key
    · subst hk
      simp [createDataProperty, ownKeys]
    · have hk2 : ¬ key = k := fun h => hk h.symm
      by_cases hm : key ∈ List.map Prod.fst rest
      · simp only [createDataProperty, hk, if_false, ownKeys, List.map_cons, ih2, hm,
          if_true, List.mem_cons, or_true]
      · simp only [createDataProperty, hk, if_false, ownKeys, List.map_cons, ih2, hm,
          List.mem_cons, hk2, or_self, List.cons_append]

theorem nodup_ownKeys_createDataProperty (t : Props) (key : String) (v : JSValue)
    (h : (ownKeys t).Nodup) : (ownKeys (createDataProperty t key v)).Nodup := by
  rw [ownKeys_createDataProperty]
  by_cases hm : key ∈ ownKeys t
  · simpa [hm] using h
  · simp only [hm, if_false]
    exact List.Nodup.append h (List.nodup_singleton key)
      (by
        intro a ha hk
        rw [List.mem_singleton] at hk
        exact hm (hk ▸ ha))

theorem nodup_ownKeys_copyDataProperties (target source : Props)
    (h : (ownKeys target).Nodup) : (ownKeys (copyDataProperties target source)).Nodup := by
  unfold copyDataProperties
  generalize ownKeys source = keys
  induction keys generalizing target with
  | nil => simpa using h
  | cons key rest ih =>
    rw [List.foldl_cons]
    apply ih
    cases getOwn source key with
    | none => exact h
    | some v => exact nodup_ownKeys_createDataProperty target key v h

/-- The object built by `{ ...globals.node, ...globals.browser }` never holds
a key twice. -/
theorem nodup_ownKeys_globalsUnion (n b : Props) : (ownKeys (globalsUnion n b)).Nodup := by
  unfold globalsUnion
  apply nodup_ownKeys_copyDataProperties
  apply nodup_ownKeys_copyDataProperties
  simp [ownKeys]

theorem eslintConfig_eq (js : JSValue) (ts : List JSValue) (n b : Props) :
    eslintConfig js ts n b = js :: (ts ++ [overrideFragment n b, ignoresFragment]) := by
  simp [eslintConfig, defineConfig]

/-! ## Lemmas on the glob matcher -/

theorem matchSegments_literal (name : String) (path : List String) :
    matchSegments [.literal name] path = true ↔ path = [name] := by
  cases path with
  | nil => simp [matchSegments]
  | cons s rest => cases rest <;> simp [matchSegments]

theorem matchSegments_globstar_literal (name : String) (dir : List String) :
    matchSegments [.globstar, .literal name] dir = true ↔ dir.getLast? = some name := by
  induction dir with
  | nil => simp [matchSegments]
  | cons a l ih =>
    have hstep : matchSegments [.globstar, .literal name] (a :: l) =
        (matchSegments [.literal name] (a :: l) ||
          matchSegments [.globstar, .literal name] l) := by
      simp [matchSegments]
    rw [hstep, Bool.or_eq_true, ih, matchSegments_literal]
    cases l with
    | nil => simp
    | cons b l2 => simp [List.getLast?_cons_cons]

theorem exists_ancestor_iff (name : String) (dirs : List String) :
    (∃ d ∈ dirs.inits.tail, d.getLast? = some name) ↔ name ∈ dirs := by
  constructor
  · rintro ⟨d, hd, hl⟩
    have hp : d <+: dirs := (List.mem_inits d dirs).1 (List.mem_of_mem_tail hd)
    exact hp.subset (List.mem_of_getLast?_eq_some hl)
  · intro h
    obtain ⟨s, t, rfl⟩ := List.append_of_mem h
    refine ⟨s ++ [name], ?_, by simp⟩
    have hmem : s ++ [name] ∈ (s ++ name :: t).inits :=
      (List.mem_inits _ _).2 ⟨t, by simp⟩
    cases hi : (s ++ name :: t).inits with
    | nil => simp [hi] at hmem
    | cons hd tl =>
      rw [hi] at hmem
      have hhd : hd = [] := by
        cases s <;> simp [List.inits] at hi <;> exact hi.1
      rcases List.mem_cons.1 hmem with h1 | h1
      · rw [hhd] at h1; simp at h1
      · simpa using h1


theorem patternIgnores_directory (name : String) (path : String) :
    patternIgnores { segments := [.globstar, .literal name], directory := true } path = true ↔
      name ∈ directorySegments path := by
  simp only [patternIgnores, if_true, List.any_eq_true, ancestors,
    matchSegments_globstar_literal]
  exact exists_ancestor_iff name (directorySegments path)

/-! ## Lemmas on the running program -/

theorem allPairs_iff {α β : Type} (r : α → β → Bool) (xs : List α) (ys : List β) :
    allPairs r xs ys = true ↔ List.Forall₂ (fun x y => r x y = true) xs ys := by
  induction xs generalizing ys with
  | nil => cases ys <;> simp [allPairs]
  | cons x xs ih =>
    cases ys with
    | nil => simp [allPairs]
    | cons y ys => simp [allPairs, ih]

theorem allPairs_mono {α β : Type} (r s : α → β → Bool)
    (hrs : ∀ x y, r x y = true → s x y = true) (xs : List α) (ys : List β)
    (h : allPairs r xs ys = true) : allPairs s xs ys = true := by
  rw [allPairs_iff] at h ⊢
  exact h.imp hrs

theorem allPairs_append {α β : Type} (r : α → β → Bool) (xs xs2 : List α) (ys ys2 : List β)
    (h : allPairs r xs ys = true) (h2 : allPairs r xs2 ys2 = true) :
    allPairs r (xs ++ xs2) (ys ++ ys2) = true := by
  induction xs generalizing ys with
  | nil =>
    cases ys with
    | nil => simpa using h2
    | cons y ys => simp [allPairs] at h
  | cons x xs ih =>
    cases ys with
    | nil => simp [allPairs] at h
    | cons y ys =>
      simp only [allPairs, Bool.and_eq_true, List.cons_append] at h ⊢
      exact ⟨h.1, ih ys h.2⟩

theorem allPairs_length {α β : Type} (r : α → β → Bool) (xs : List α) (ys : List β)
    (h : allPairs r xs ys = true) : xs.length = ys.length :=
  ((allPairs_iff r xs ys).1 h).length_eq

/-! ### The spread keeps related property lists related -/

theorem ownKeysOf_rel {α β : Type} (R : α → β → Prop) (ps : List (String × α))
    (qs : List (String × β)) (h : PropsRel R ps qs) : ownKeysOf ps = ownKeysOf qs := by
  unfold PropsRel at h
  induction h with
  | nil => rfl
  | cons hpq _ ih =>
    simp only [ownKeysOf, List.map_cons] at ih ⊢
    rw [hpq.1, ih]

theorem getOwnOf_rel {α β : Type} (R : α → β → Prop) (ps : List (String × α))
    (qs : List (String × β)) (h : PropsRel R ps qs) (key : String) :
    (getOwnOf ps key = none ∧ getOwnOf qs key = none) ∨
      ∃ v w, getOwnOf ps key = some v ∧ getOwnOf qs key = some w ∧ R v w := by
  unfold PropsRel at h
  induction h with
  | nil => exact Or.inl ⟨rfl, rfl⟩
  | @cons p q ps qs hpq _ ih =>
    obtain ⟨k, v⟩ := p
    obtain ⟨k2, w⟩ := q
    obtain ⟨hk, hR⟩ := hpq
    simp only at hk hR
    subst hk
    by_cases hkey : k = key
    · exact Or.inr ⟨v, w, by simp [getOwnOf, hkey], by simp [getOwnOf, hkey], hR⟩
    · simpa [getOwnOf, hkey] using ih

theorem createDataPropertyOf_rel {α β : Type} (R : α → β → Prop) (t1 : List (String × α))
    (t2 : List (String × β)) (h : PropsRel R t1 t2) (key : String) (v : α) (w : β)
    (hvw : R v w) :
    PropsRel R (createDataPropertyOf t1 key v) (createDataPropertyOf t2 key w) := by
  unfold PropsRel at h ⊢
  induction h with
  | nil => exact List.Forall₂.cons ⟨rfl, hvw⟩ List.Forall₂.nil
  | @cons p q ps qs hpq hrest ih =>
    obtain ⟨k, v0⟩ := p
    obtain ⟨k2, w0⟩ := q
    obtain ⟨hk, hR⟩ := hpq
    simp only at hk hR
    subst hk
    by_cases hkey : k = key
    · simp only [createDataPropertyOf, hkey, if_true]
      exact List.Forall₂.cons ⟨rfl, hvw⟩ hrest
    · simp only [createDataPropertyOf, hkey, if_false]
      exact List.Forall₂.cons ⟨rfl, hR⟩ ih

theorem foldl_copyOf_rel {α β : Type} (R : α → β → Prop) (s1 : List (String × α))
    (s2 : List (String × β)) (hs : PropsRel R s1 s2) (keys : List String)
    (t1 : List (String × α)) (t2 : List (String × β)) (ht : PropsRel R t1 t2) :
    PropsRel R
      (keys.foldl
        (fun t key =>
          match getOwnOf s1 key with
          | some v => createDataPropertyOf t key v
          | none => t)
        t1)
      (keys.foldl
        (fun t key =>
          match getOwnOf s2 key with
          | some v => createDataPropertyOf t key v
          | none => t)
        t2) := by
  induction keys generalizing t1 t2 with
  | nil => exact ht
  | cons key rest ih =>
    rw [List.foldl_cons, List.foldl_cons]
    apply ih
    rcases getOwnOf_rel R s1 s2 hs key with ⟨h1, h2⟩ | ⟨v, w, h1, h2, hvw⟩
    · rw [h1, h2]; exact ht
    · rw [h1, h2]; exact createDataPropertyOf_rel R t1 t2 ht key v w hvw

theorem copyDataPropertiesOf_rel {α β : Type} (R : α → β → Prop)
    (t1 s1 : List (String × α)) (t2 s2 : List (String × β))
    (ht : PropsRel R t1 t2) (hs : PropsRel R s1 s2) :
    PropsRel R (copyDataPropertiesOf t1 s1) (copyDataPropertiesOf t2 s2) := by
  unfold copyDataPropertiesOf
  rw [ownKeysOf_rel R s1 s2 hs]
  exact foldl_copyOf_rel R s1 s2 hs _ t1 t2 ht

/-! ### The operations on `Props` are the operations on any property list -/

theorem getOwn_eq_getOwnOf (o : Props) (key : String) : getOwn o key = getOwnOf o key := by
  induction o with
  | nil => rfl
  | cons p rest ih =>
    obtain ⟨k, v⟩ := p
    simp only [getOwn, getOwnOf, ih]

theorem createDataProperty_eq_createDataPropertyOf (t : Props) (key : String) (v : JSValue) :
    createDataProperty t key v = createDataPropertyOf t key v := by
  induction t with
  | nil => rfl
  | cons p rest ih =>
    obtain ⟨k, w⟩ := p
    simp only [createDataProperty, createDataPropertyOf, ih]

theorem copyDataProperties_eq_copyDataPropertiesOf (target source : Props) :
    copyDataProperties target source = copyDataPropertiesOf target source := by
  unfold copyDataProperties copyDataPropertiesOf ownKeys ownKeysOf
  congr 1
  funext t key
  rw [getOwn_eq_getOwnOf]
  cases getOwnOf source key with
  | none => rfl
  | some v => exact createDataProperty_eq_createDataPropertyOf t key v

theorem globalsUnion_eq_copyDataPropertiesOf (n b : Props) :
    globalsUnion n b = copyDataPropertiesOf (copyDataPropertiesOf [] n) b := by
  unfold globalsUnion
  rw [copyDataProperties_eq_copyDataPropertiesOf, copyDataProperties_eq_copyDataPropertiesOf]

/-! ### What an evaluation returns and allocates -/

theorem evalConfig_eq (h : Heap) (js : HValue) (ts : List HValue) (n b : HProps) :
    evalConfig h js ts n b =
      (js :: (ts ++ [.ref (h.length + 2), .ref (h.length + 4)]),
        h ++ newCells h.length n b) := by
  simp [evalConfig, alloc, heapDefineConfig, newCells]

theorem evalConfig_eq_fst (h : Heap) (js : HValue) (ts : List HValue) (n b : HProps) :
    (evalConfig h js ts n b).1 =
      js :: (ts ++ [.ref (h.length + 2), .ref (h.length + 4)]) := by
  rw [evalConfig_eq]

theorem evalConfig_eq_snd (h : Heap) (js : HValue) (ts : List HValue) (n b : HProps) :
    (evalConfig h js ts n b).2 = h ++ newCells h.length n b := by
  rw [evalConfig_eq]

theorem evalConfig_length_snd (h : Heap) (js : HValue) (ts : List HValue) (n b : HProps) :
    (evalConfig h js ts n b).2.length = h.length + 5 := by
  rw [evalConfig_eq]
  simp [newCells]

theorem getElem?_newCells (h : Heap) (n b : HProps) (k : Nat) :
    (h ++ newCells h.length n b)[h.length + k]? = (newCells h.length n b)[k]? := by
  rw [List.getElem?_append_right (Nat.le_add_right _ _)]
  simp

theorem getElem?_append_of_eq_some (h e : Heap) (a : Nat) (o : HObject)
    (ho : h[a]? = some o) : (h ++ e)[a]? = some o := by
  have hlt : a < h.length := (List.getElem?_eq_some.1 ho).1
  rw [List.getElem?_append_left hlt, ho]

/-! ### Structural equality survives allocation -/

theorem sameAt_append (below above : HValue → HValue → Bool)
    (hmono : ∀ v w, below v w = true → above v w = true)
    (h1 h2 e1 e2 : Heap) (v w : HValue) (hs : sameAt below h1 h2 v w = true) :
    sameAt above (h1 ++ e1) (h2 ++ e2) v w = true := by
  cases v <;> cases w <;> try (simp [sameAt] at hs ⊢ <;> assumption)
  case ref.ref a b =>
    simp only [sameAt] at hs ⊢
    cases hl1 : h1[a]? with
    | none => simp [hl1] at hs
    | some o1 =>
      cases hl2 : h2[b]? with
      | none => rw [hl1, hl2] at hs; cases o1 <;> simp at hs
      | some o2 =>
        rw [hl1, hl2] at hs
        rw [getElem?_append_of_eq_some h1 e1 a o1 hl1,
          getElem?_append_of_eq_some h2 e2 b o2 hl2]
        cases o1 with
        | array xs =>
          cases o2 with
          | array ys => exact allPairs_mono _ _ hmono _ _ hs
          | object qs => simp at hs
        | object ps =>
          cases o2 with
          | array ys => simp at hs
          | object qs =>
            refine allPairs_mono _ _ ?_ _ _ hs
            intro p q hpq
            simp only [Bool.and_eq_true] at hpq ⊢
            exact ⟨hpq.1, hmono _ _ hpq.2⟩

theorem structEq_append (d : Nat) (h1 h2 e1 e2 : Heap) (v w : HValue)
    (hs : structEq d h1 h2 v w = true) : structEq d (h1 ++ e1) (h2 ++ e2) v w = true := by
  induction d generalizing v w with
  | zero => rfl
  | succ d ih => exact sameAt_append _ _ ih h1 h2 e1 e2 v w hs

theorem propsEq_iff (d : Nat) (h1 h2 : Heap) (ps qs : HProps) :
    propsEq d h1 h2 ps qs = true ↔
      PropsRel (fun v w => structEq d h1 h2 v w = true) ps qs := by
  unfold propsEq PropsRel
  rw [allPairs_iff]
  simp only [Bool.and_eq_true, decide_eq_true_eq]

theorem propsEq_append (d : Nat) (h1 h2 e1 e2 : Heap) (ps qs : HProps)
    (h : propsEq d h1 h2 ps qs = true) : propsEq d (h1 ++ e1) (h2 ++ e2) ps qs = true := by
  rw [propsEq_iff] at h ⊢
  exact h.imp (fun _ _ hp => ⟨hp.1, structEq_append d h1 h2 e1 e2 _ _ hp.2⟩)

theorem valuesEq_append (d : Nat) (h1 h2 e1 e2 : Heap) (xs ys : List HValue)
    (h : valuesEq d h1 h2 xs ys = true) : valuesEq d (h1 ++ e1) (h2 ++ e2) xs ys = true :=
  allPairs_mono _ _ (fun v w => structEq_append d h1 h2 e1 e2 v w) xs ys h

theorem structEq_ref_object (d : Nat) (h1 h2 : Heap) (a b : Nat) (ps qs : HProps)
    (l1 : h1[a]? = some (.object ps)) (l2 : h2[b]? = some (.object qs)) :
    structEq (d + 1) h1 h2 (.ref a) (.ref b) = propsEq d h1 h2 ps qs := by
  simp only [structEq, sameAt, l1, l2]
  rfl

theorem structEq_ref_array (d : Nat) (h1 h2 : Heap) (a b : Nat) (xs ys : List HValue)
    (l1 : h1[a]? = some (.array xs)) (l2 : h2[b]? = some (.array ys)) :
    structEq (d + 1) h1 h2 (.ref a) (.ref b) = valuesEq d h1 h2 xs ys := by
  simp only [structEq, sameAt, l1, l2]
  rfl

theorem structEq_str (d : Nat) (h1 h2 : Heap) (s : String) :
    structEq d h1 h2 (.str s) (.str s) = true := by
  cases d <;> simp [structEq, sameAt]

theorem structEq_bool (d : Nat) (h1 h2 : Heap) (b : Bool) :
    structEq d h1 h2 (.bool b) (.bool b) = true := by
  cases d <;> simp [structEq, sameAt]

/-! ### The new objects of two evaluations are structurally equal -/

theorem structEq_globals (h1 h2 : Heap) (n1 n2 b1 b2 : HProps)
    (hn : ∀ d, propsEq d h1 h2 n1 n2 = true) (hb : ∀ d, propsEq d h1 h2 b1 b2 = true)
    (d : Nat) :
    structEq d (h1 ++ newCells h1.length n1 b1) (h2 ++ newCells h2.length n2 b2)
      (.ref h1.length) (.ref h2.length) = true := by
  cases d with
  | zero => rfl
  | succ d =>
    have e := structEq_ref_object d _ _ _ _ _ _ (getElem?_newCells h1 n1 b1 0)
      (getElem?_newCells h2 n2 b2 0)
    simp only [Nat.add_zero] at e
    rw [e, propsEq_iff]
    exact copyDataPropertiesOf_rel _ _ _ _ _
      (copyDataPropertiesOf_rel _ [] _ [] _ List.Forall₂.nil
        ((propsEq_iff _ _ _ _ _).1 (propsEq_append d h1 h2 _ _ n1 n2 (hn d))))
      ((propsEq_iff _ _ _ _ _).1 (propsEq_append d h1 h2 _ _ b1 b2 (hb d)))

theorem structEq_languageOptions (h1 h2 : Heap) (n1 n2 b1 b2 : HProps)
    (hn : ∀ d, propsEq d h1 h2 n1 n2 = true) (hb : ∀ d, propsEq d h1 h2 b1 b2 = true)
    (d : Nat) :
    structEq d (h1 ++ newCells h1.length n1 b1) (h2 ++ newCells h2.length n2 b2)
      (.ref (h1.length + 1)) (.ref (h2.length + 1)) = true := by
  cases d with
  | zero => rfl
  | succ d =>
    rw [structEq_ref_object d _ _ _ _ _ _ (getElem?_newCells h1 n1 b1 1)
      (getElem?_newCells h2 n2 b2 1)]
    simp [propsEq, allPairs, structEq_globals h1 h2 n1 n2 b1 b2 hn hb d]

theorem structEq_override (h1 h2 : Heap) (n1 n2 b1 b2 : HProps)
    (hn : ∀ d, propsEq d h1 h2 n1 n2 = true) (hb : ∀ d, propsEq d h1 h2 b1 b2 = true)
    (d : Nat) :
    structEq d (h1 ++ newCells h1.length n1 b1) (h2 ++ newCells h2.length n2 b2)
      (.ref (h1.length + 2)) (.ref (h2.length + 2)) = true := by
  cases d with
  | zero => rfl
  | succ d =>
    rw [structEq_ref_object d _ _ _ _ _ _ (getElem?_newCells h1 n1 b1 2)
      (getElem?_newCells h2 n2 b2 2)]
    simp [propsEq, allPairs, structEq_languageOptions h1 h2 n1 n2 b1 b2 hn hb d]

theorem structEq_patterns (h1 h2 : Heap) (n1 n2 b1 b2 : HProps) (d : Nat) :
    structEq d (h1 ++ newCells h1.length n1 b1) (h2 ++ newCells h2.length n2 b2)
      (.ref (h1.length + 3)) (.ref (h2.length + 3)) = true := by
  cases d with
  | zero => rfl
  | succ d =>
    rw [structEq_ref_array d _ _ _ _ _ _ (getElem?_newCells h1 n1 b1 3)
      (getElem?_newCells h2 n2 b2 3)]
    simp [valuesEq, allPairs, structEq_str]

theorem structEq_ignores (h1 h2 : Heap) (n1 n2 b1 b2 : HProps) (d : Nat) :
    structEq d (h1 ++ newCells h1.length n1 b1) (h2 ++ newCells h2.length n2 b2)
      (.ref (h1.length + 4)) (.ref (h2.length + 4)) = true := by
  cases d with
  | zero => rfl
  | succ d =>
    rw [structEq_ref_object d _ _ _ _ _ _ (getElem?_newCells h1 n1 b1 4)
      (getElem?_newCells h2 n2 b2 4)]
    simp [propsEq, allPairs, structEq_patterns h1 h2 n1 n2 b1 b2 d]

/-- Two evaluations, in any two heaps, from structurally equal imports: the
two exported lists are structurally equal. -/
theorem evalConfig_structEq (h1 h2 : Heap) (js1 js2 : HValue) (ts1 ts2 : List HValue)
    (n1 n2 b1 b2 : HProps)
    (hjs : ∀ d, structEq d h1 h2 js1 js2 = true)
    (hts : ∀ d, valuesEq d h1 h2 ts1 ts2 = true)
    (hn : ∀ d, propsEq d h1 h2 n1 n2 = true)
    (hb : ∀ d, propsEq d h1 h2 b1 b2 = true) (d : Nat) :
    valuesEq d (evalConfig h1 js1 ts1 n1 b1).2 (evalConfig h2 js2 ts2 n2 b2).2
      (evalConfig h1 js1 ts1 n1 b1).1 (evalConfig h2 js2 ts2 n2 b2).1 = true := by
  rw [evalConfig_eq, evalConfig_eq]
  simp only [valuesEq, allPairs, Bool.and_eq_true]
  refine ⟨structEq_append d h1 h2 _ _ _ _ (hjs d), ?_⟩
  apply allPairs_append
  · exact valuesEq_append d h1 h2 _ _ ts1 ts2 (hts d)
  · simp only [allPairs, Bool.and_eq_true, and_true]
    exact ⟨structEq_override h1 h2 n1 n2 b1 b2 hn hb d, structEq_ignores h1 h2 n1 n2 b1 b2 d⟩

/-! ### The running program builds the list of `eslintConfig` -/

theorem denotesAt_append (below above : HValue → JSValue → Bool)
    (hmono : ∀ v j, below v j = true → above v j = true)
    (h e : Heap) (v : HValue) (j : JSValue) (hs : denotesAt below h v j = true) :
    denotesAt above (h ++ e) v j = true := by
  cases v <;> cases j <;> try (simp [denotesAt] at hs ⊢ <;> assumption)
  case ref.array a ys =>
    simp only [denotesAt] at hs ⊢
    cases hl : h[a]? with
    | none => simp [hl] at hs
    | some o =>
      rw [hl] at hs
      rw [getElem?_append_of_eq_some h e a o hl]
      cases o with
      | array xs => exact allPairs_mono _ _ hmono _ _ hs
      | object ps => simp at hs
  case ref.object a qs =>
    simp only [denotesAt] at hs ⊢
    cases hl : h[a]? with
    | none => simp [hl] at hs
    | some o =>
      rw [hl] at hs
      rw [getElem?_append_of_eq_some h e a o hl]
      cases o with
      | array xs => simp at hs
      | object ps =>
        refine allPairs_mono _ _ ?_ _ _ hs
        intro p q hpq
        simp only [Bool.and_eq_true] at hpq ⊢
        exact ⟨hpq.1, hmono _ _ hpq.2⟩

theorem denotes_append (d : Nat) (h e : Heap) (v : HValue) (j : JSValue)
    (hs : denotes d h v j = true) : denotes d (h ++ e) v j = true := by
  induction d generalizing v j with
  | zero => rfl
  | succ d ih => exact denotesAt_append _ _ ih h e v j hs

theorem propsDenote_iff (d : Nat) (h : Heap) (ps : HProps) (qs : Props) :
    propsDenote d h ps qs = true ↔ PropsRel (fun v j => denotes d h v j = true) ps qs := by
  unfold propsDenote PropsRel
  rw [allPairs_iff]
  simp only [Bool.and_eq_true, decide_eq_true_eq]

theorem propsDenote_append (d : Nat) (h e : Heap) (ps : HProps) (qs : Props)
    (hp : propsDenote d h ps qs = true) : propsDenote d (h ++ e) ps qs = true := by
  rw [propsDenote_iff] at hp ⊢
  exact hp.imp (fun _ _ hpq => ⟨hpq.1, denotes_append d h e _ _ hpq.2⟩)

theorem valuesDenote_append (d : Nat) (h e : Heap) (xs : List HValue) (ys : List JSValue)
    (hv : valuesDenote d h xs ys = true) : valuesDenote d (h ++ e) xs ys = true :=
  allPairs_mono _ _ (fun v j => denotes_append d h e v j) xs ys hv

theorem denotes_ref_object (d : Nat) (h : Heap) (a : Nat) (ps : HProps) (qs : Props)
    (l : h[a]? = some (.object ps)) :
    denotes (d + 1) h (.ref a) (.object qs) = propsDenote d h ps qs := by
  simp only [denotes, denotesAt, l]
  rfl

theorem denotes_ref_array (d : Nat) (h : Heap) (a : Nat) (xs : List HValue)
    (ys : List JSValue) (l : h[a]? = some (.array xs)) :
    denotes (d + 1) h (.ref a) (.array ys) = valuesDenote d h xs ys := by
  simp only [denotes, denotesAt, l]
  rfl

theorem denotes_str (d : Nat) (h : Heap) (s : String) :
    denotes d h (.str s) (.str s) = true := by
  cases d <;> simp [denotes, denotesAt]

theorem denotes_bool (d : Nat) (h : Heap) (b : Bool) :
    denotes d h (.bool b) (.bool b) = true := by
  cases d <;> simp [denotes, denotesAt]

theorem denotes_globals (h : Heap) (n b : HProps) (globalsNode globalsBrowser : Props)
    (hn : ∀ d, propsDenote d h n globalsNode = true)
    (hb : ∀ d, propsDenote d h b globalsBrowser = true) (d : Nat) :
    denotes d (h ++ newCells h.length n b) (.ref h.length)
      (.object (globalsUnion globalsNode globalsBrowser)) = true := by
  cases d with
  | zero => rfl
  | succ d =>
    have e := denotes_ref_object d _ _ _ (globalsUnion globalsNode globalsBrowser)
      (getElem?_newCells h n b 0)
    simp only [Nat.add_zero] at e
    rw [e, propsDenote_iff, globalsUnion_eq_copyDataPropertiesOf]
    exact copyDataPropertiesOf_rel _ _ _ _ _
      (copyDataPropertiesOf_rel _ [] _ [] _ List.Forall₂.nil
        ((propsDenote_iff _ _ _ _).1 (propsDenote_append d h _ n globalsNode (hn d))))
      ((propsDenote_iff _ _ _ _).1 (propsDenote_append d h _ b globalsBrowser (hb d)))

theorem denotes_languageOptions (h : Heap) (n b : HProps)
    (globalsNode globalsBrowser : Props)
    (hn : ∀ d, propsDenote d h n globalsNode = true)
    (hb : ∀ d, propsDenote d h b globalsBrowser = true) (d : Nat) :
    denotes d (h ++ newCells h.length n b) (.ref (h.length + 1))
      (.object [("globals", .object (globalsUnion globalsNode globalsBrowser))]) = true := by
  cases d with
  | zero => rfl
  | succ d =>
    rw [denotes_ref_object d _ _ _ _ (getElem?_newCells h n b 1)]
    simp [propsDenote, allPairs, denotes_globals h n b globalsNode globalsBrowser hn hb d]

theorem denotes_overrideFragment (h : Heap) (n b : HProps)
    (globalsNode globalsBrowser : Props)
    (hn : ∀ d, propsDenote d h n globalsNode = true)
    (hb : ∀ d, propsDenote d h b globalsBrowser = true) (d : Nat) :
    denotes d (h ++ newCells h.length n b) (.ref (h.length + 2))
      (overrideFragment globalsNode globalsBrowser) = true := by
  cases d with
  | zero => rfl
  | succ d =>
    unfold overrideFragment
    rw [denotes_ref_object d _ _ _ _ (getElem?_newCells h n b 2)]
    simp [propsDenote, allPairs,
      denotes_languageOptions h n b globalsNode globalsBrowser hn hb d]

theorem denotes_patterns (h : Heap) (n b : HProps) (d : Nat) :
    denotes d (h ++ newCells h.length n b) (.ref (h.length + 3))
      (.array [.str "**/dist/", .str "**/node_modules/"]) = true := by
  cases d with
  | zero => rfl
  | succ d =>
    rw [denotes_ref_array d _ _ _ _ (getElem?_newCells h n b 3)]
    simp [valuesDenote, allPairs, denotes_str]

theorem denotes_ignoresFragment (h : Heap) (n b : HProps) (d : Nat) :
    denotes d (h ++ newCells h.length n b) (.ref (h.length + 4)) ignoresFragment = true := by
  cases d with
  | zero => rfl
  | succ d =>
    unfold ignoresFragment
    rw [denotes_ref_object d _ _ _ _ (getElem?_newCells h n b 4)]
    simp [propsDenote, allPairs, denotes_patterns h n b d]

/-- The list the running program builds reads as the list of `eslintConfig`:
when the imported values read as `js`, `ts`, `node` and `browser`, the
exported list of the evaluation reads, in the heap it leaves, as
`eslintConfig js ts node browser`. -/
theorem evalConfig_denotes_eslintConfig (h : Heap) (jsRef : HValue) (tsRefs : List HValue)
    (n b : HProps) (js : JSValue) (ts : List JSValue) (node browser : Props)
    (hjs : ∀ d, denotes d h jsRef js = true)
    (hts : ∀ d, valuesDenote d h tsRefs ts = true)
    (hn : ∀ d, propsDenote d h n node = true)
    (hb : ∀ d, propsDenote d h b browser = true) (d : Nat) :
    valuesDenote d (evalConfig h jsRef tsRefs n b).2 (evalConfig h jsRef tsRefs n b).1
      (eslintConfig js ts node browser) = true := by
  rw [evalConfig_eq, eslintConfig_eq]
  simp only [valuesDenote, allPairs, Bool.and_eq_true]
  refine ⟨denotes_append d h _ _ _ (hjs d), ?_⟩
  apply allPairs_append
  · exact valuesDenote_append d h _ tsRefs ts (hts d)
  · simp only [allPairs, Bool.and_eq_true, and_true]
    exact ⟨denotes_overrideFragment h n b node browser hn hb d,
      denotes_ignoresFragment h n b d⟩

/-! ## The exported list -/

/-- C1: in the exported list the baseline fragment sits at index 0, the
TypeScript fragment number `i` at index `i + 1`, the override fragment at
index `length ts + 1` and the ignore-patterns fragment at index
`length ts + 2`; so the baseline comes strictly before every TypeScript
fragment, each of these strictly before the override fragment, and the
override fragment strictly before the ignore-patterns fragment. -/
theorem C1_fragment_order (js : JSValue) (ts : List JSValue) (n b : Props) :
    (eslintConfig js ts n b)[0]? = some js ∧
    (∀ i (h : i < ts.length),
      (eslintConfig js ts n b)[i + 1]? = some ts[i] ∧ 0 < i + 1 ∧ i + 1 < ts.length + 1) ∧
    (eslintConfig js ts n b)[ts.length + 1]? = some (overrideFragment n b) ∧
    (eslintConfig js ts n b)[ts.length + 2]? = some ignoresFragment ∧
    ts.length + 1 < ts.length + 2 := by
  rw [eslintConfig_eq]
  refine ⟨by simp, ?_, ?_, ?_, by omega⟩
  · intro i h
    refine ⟨?_, by omega, by omega⟩
    rw [List.getElem?_cons_succ, List.getElem?_append_left h, List.getElem?_eq_getElem h]
  · rw [List.getElem?_cons_succ, List.getElem?_append_right (le_refl _)]
    simp
  · rw [show ts.length + 2 = (ts.length + 1) + 1 from rfl, List.getElem?_cons_succ,
      List.getElem?_append_right (Nat.le_succ _)]
    simp

/-- C1, at a bundle of two fragments: the second one is at index 2. -/
theorem C1_fragment_order_witness :
    (eslintConfig (.str "js") [.str "ts0", .str "ts1"] [] [])[2]? = some (.str "ts1") :=
  ((C1_fragment_order (.str "js") [.str "ts0", .str "ts1"] [] []).2.1 1 (by decide)).1

/-- C4: the exported list is the baseline fragment, then the fragments of the
TypeScript bundle, then the override fragment, then the ignore-patterns
fragment, and nothing else: its length is `length ts + 3`, and outside the
block taken by the bundle it holds the baseline, the override and the
ignore-patterns fragment once each. -/
theorem C4_exact_fragments (js : JSValue) (ts : List JSValue) (n b : Props) :
    (eslintConfig js ts n b).length = ts.length + 3 ∧
    eslintConfig js ts n b = [js] ++ ts ++ [overrideFragment n b] ++ [ignoresFragment] ∧
    (eslintConfig js ts n b).take 1 ++ (eslintConfig js ts n b).drop (ts.length + 1) =
      [js, overrideFragment n b, ignoresFragment] := by
  rw [eslintConfig_eq]
  refine ⟨by simp, by simp, ?_⟩
  simp

/-- C5: the last fragment of the exported list is the ignore-patterns
fragment; its only key is `ignores`, whose value is the array of the two
strings `**/dist/` and `**/node_modules/`, in that order. -/
theorem C5_ignores_last (js : JSValue) (ts : List JSValue) (n b : Props) :
    ∃ last, (eslintConfig js ts n b).getLast? = some last ∧
      last.keys = ["ignores"] ∧
      last.getProp "ignores" = some (.array [.str "**/dist/", .str "**/node_modules/"]) ∧
      ignorePatterns last = ["**/dist/", "**/node_modules/"] := by
  refine ⟨ignoresFragment, ?_, by decide, by rfl, by decide⟩
  rw [eslintConfig_eq, List.getLast?_cons, List.getLast?_append]
  simp

/-- C8: the fragments of the TypeScript bundle are the block of the exported
list that starts at index 1, in the order of the bundle and unchanged: the
element at index `i + 1` is `ts[i]` for every `i < length ts`. -/
theorem C8_typescript_block (js : JSValue) (ts : List JSValue) (n b : Props) :
    ((eslintConfig js ts n b).drop 1).take ts.length = ts ∧
    ∀ i (h : i < ts.length), (eslintConfig js ts n b)[i + 1]? = some ts[i] := by
  rw [eslintConfig_eq]
  refine ⟨by simp, ?_⟩
  intro i h
  rw [List.getElem?_cons_succ, List.getElem?_append_left h, List.getElem?_eq_getElem h]

/-- C8, at a bundle of two fragments: the first one is at index 1. -/
theorem C8_typescript_block_witness :
    (eslintConfig .null [.str "ts0", .str "ts1"] [] [])[1]? = some (.str "ts0") :=
  (C8_typescript_block .null [.str "ts0", .str "ts1"] [] []).2 0 (by decide)

/-! ## The override fragment -/

/-- C2: the `languageOptions.globals` object of the override fragment maps a
name to the browser set's value when the browser set defines it, to the node
set's value when only the node set defines it, and has no such key otherwise;
when both sets define the name with different values, the browser set's value
is in the result. -/
theorem C2_browser_wins (n b : Props) (x : String) :
    ∃ g, languageOptionsGlobals (overrideFragment n b) = some g ∧
      (∀ m, getOwn b x = some m → getOwn g x = some m) ∧
      (∀ m, getOwn n x = some m → getOwn b x = none → getOwn g x = some m) ∧
      (getOwn n x = none → getOwn b x = none → getOwn g x = none) ∧
      (∀ mn mb, getOwn n x = some mn → getOwn b x = some mb → mn ≠ mb →
        getOwn g x = some mb) := by
  refine ⟨globalsUnion n b, rfl, ?_, ?_, ?_, ?_⟩
  · intro m hb
    rw [getOwn_globalsUnion, hb]; rfl
  · intro m hn hb
    rw [getOwn_globalsUnion, hb, hn]; rfl
  · intro hn hb
    rw [getOwn_globalsUnion, hb, hn]; rfl
  · intro mn mb _ hb _
    rw [getOwn_globalsUnion, hb]; rfl

/-- C2, at a name both sets define with different modes. -/
theorem C2_browser_wins_witness :
    getOwn (globalsUnion [("name", .bool false)] [("name", .bool true)]) "name" =
      some (.bool true) := by
  obtain ⟨g, hg, _, _, _, h⟩ :=
    C2_browser_wins [("name", .bool false)] [("name", .bool true)] "name"
  have hg2 : globalsUnion [("name", .bool false)] [("name", .bool true)] = g :=
    Option.some.inj hg
  rw [hg2]
  exact h (.bool false) (.bool true) rfl rfl (by simp)

/-- C3: the names defined by the `languageOptions.globals` object of the
override fragment are the names defined by the node set together with the
names defined by the browser set, so no name of either set is dropped; a name
that only one of the sets defines has the value that set gives it, and no
name is listed twice. -/
theorem C3_union_complete (n b : Props) :
    ∃ g, languageOptionsGlobals (overrideFragment n b) = some g ∧
      (∀ x, x ∈ ownKeys n → x ∈ ownKeys g) ∧
      (∀ x, x ∈ ownKeys b → x ∈ ownKeys g) ∧
      (∀ x, x ∈ ownKeys g → x ∈ ownKeys n ∨ x ∈ ownKeys b) ∧
      (∀ x, x ∈ ownKeys n → x ∉ ownKeys b → getOwn g x = getOwn n x) ∧
      (∀ x, x ∈ ownKeys b → x ∉ ownKeys n → getOwn g x = getOwn b x) ∧
      (ownKeys g).Nodup := by
  have key : ∀ x, x ∈ ownKeys (globalsUnion n b) ↔ x ∈ ownKeys n ∨ x ∈ ownKeys b := by
    intro x
    simp only [mem_ownKeys_iff, getOwn_globalsUnion]
    cases getOwn b x <;> cases getOwn n x <;> simp
  refine ⟨globalsUnion n b, rfl, ?_, ?_, ?_, ?_, ?_, nodup_ownKeys_globalsUnion n b⟩
  · intro x hx
    exact (key x).2 (Or.inl hx)
  · intro x hx
    exact (key x).2 (Or.inr hx)
  · intro x hx
    exact (key x).1 hx
  · intro x _ hb
    rw [getOwn_globalsUnion, (not_mem_ownKeys_iff b x).1 hb]; rfl
  · intro x hb _
    obtain ⟨v, hv⟩ := (mem_ownKeys_iff b x).1 hb
    rw [getOwn_globalsUnion, hv]; rfl

/-- C3, at a node set and a browser set with one name each. -/
theorem C3_union_complete_witness :
    "process" ∈ ownKeys (globalsUnion [("process", .bool false)] [("window", .bool true)]) ∧
    "window" ∈ ownKeys (globalsUnion [("process", .bool false)] [("window", .bool true)]) ∧
    getOwn (globalsUnion [("process", .bool false)] [("window", .bool true)]) "process" =
      some (.bool false) := by
  obtain ⟨g, hg, h1, h2, _, h3, _, _⟩ :=
    C3_union_complete [("process", .bool false)] [("window", .bool true)]
  have hg2 : globalsUnion [("process", .bool false)] [("window", .bool true)] = g :=
    Option.some.inj hg
  rw [hg2]
  exact ⟨h1 "process" (by decide), h2 "window" (by decide),
    h3 "process" (by decide) (by decide)⟩

/-- C9: the override fragment has the single key `languageOptions` (so no
`rules`, `files`, `ignores` or `plugins` entry), the object under it has the
single key `globals`, and the object under that one is the union of the node
set and the browser set, the browser set first in every lookup. -/
theorem C9_override_only_globals (n b : Props) :
    (overrideFragment n b).keys = ["languageOptions"] ∧
    (overrideFragment n b).getProp "rules" = none ∧
    (overrideFragment n b).getProp "files" = none ∧
    (overrideFragment n b).getProp "ignores" = none ∧
    (overrideFragment n b).getProp "plugins" = none ∧
    ∃ languageOptions g,
      (overrideFragment n b).getProp "languageOptions" = some languageOptions ∧
      languageOptions.keys = ["globals"] ∧
      languageOptions.getProp "globals" = some (.object g) ∧
      ∀ x, getOwn g x = (getOwn b x).orElse (fun _ => getOwn n x) := by
  refine ⟨rfl, by simp [overrideFragment, JSValue.getProp, getOwn],
    by simp [overrideFragment, JSValue.getProp, getOwn],
    by simp [overrideFragment, JSValue.getProp, getOwn],
    by simp [overrideFragment, JSValue.getProp, getOwn],
    .object [("globals", .object (globalsUnion n b))], globalsUnion n b, ?_, rfl, ?_, ?_⟩
  · simp [overrideFragment, JSValue.getProp, getOwn]
  · simp [JSValue.getProp, getOwn]
  · exact getOwn_globalsUnion n b

/-- C10: when the node set and the browser set give the same value to every
name both define (as when they share no name), spreading the node set first
and spreading the browser set first build the same mapping; when they give
different values to a shared name the two orders differ at that name, and
such sets exist. -/
theorem C10_order_sensitive_on_conflicts :
    (∀ n b : Props,
      (∀ x mn mb, getOwn n x = some mn → getOwn b x = some mb → mn = mb) →
      ∀ x, getOwn (globalsUnion n b) x = getOwn (globalsUnion b n) x) ∧
    (∀ n b : Props,
      (∀ x, x ∈ ownKeys n → x ∉ ownKeys b) →
      ∀ x, getOwn (globalsUnion n b) x = getOwn (globalsUnion b n) x) ∧
    (∀ (n b : Props) (x : String) (mn mb : JSValue),
      getOwn n x = some mn → getOwn b x = some mb → mn ≠ mb →
      getOwn (globalsUnion n b) x ≠ getOwn (globalsUnion b n) x) ∧
    (∃ (n b : Props) (x : String) (mn mb : JSValue),
      getOwn n x = some mn ∧ getOwn b x = some mb ∧ mn ≠ mb ∧
      getOwn (globalsUnion n b) x ≠ getOwn (globalsUnion b n) x) := by
  have agree : ∀ n b : Props,
      (∀ x mn mb, getOwn n x = some mn → getOwn b x = some mb → mn = mb) →
      ∀ x, getOwn (globalsUnion n b) x = getOwn (globalsUnion b n) x := by
    intro n b h x
    rw [getOwn_globalsUnion, getOwn_globalsUnion]
    cases hb : getOwn b x with
    | none => cases getOwn n x <;> rfl
    | some mb =>
      cases hn : getOwn n x with
      | none => rfl
      | some mn => rw [h x mn mb hn hb]
  have differ : ∀ (n b : Props) (x : String) (mn mb : JSValue),
      getOwn n x = some mn → getOwn b x = some mb → mn ≠ mb →
      getOwn (globalsUnion n b) x ≠ getOwn (globalsUnion b n) x := by
    intro n b x mn mb hn hb hne
    rw [getOwn_globalsUnion, getOwn_globalsUnion, hn, hb]
    intro h
    exact hne (Option.some.inj h).symm
  refine ⟨agree, ?_, differ, ?_⟩
  · intro n b hd
    apply agree
    intro x mn mb hn hb
    exact absurd ((mem_ownKeys_iff b x).2 ⟨mb, hb⟩) (hd x ((mem_ownKeys_iff n x).2 ⟨mn, hn⟩))
  · have hne : JSValue.bool false ≠ JSValue.bool true := by simp
    exact ⟨[("name", .bool false)], [("name", .bool true)], "name", .bool false, .bool true,
      rfl, rfl, hne, differ _ _ _ _ _ rfl rfl hne⟩

/-- C10, at two sets that share the name `self` with the same mode. -/
theorem C10_order_sensitive_on_conflicts_witness :
    getOwn (globalsUnion [("self", .bool false), ("process", .bool false)]
        [("window", .bool true), ("self", .bool false)]) "self" =
      getOwn (globalsUnion [("window", .bool true), ("self", .bool false)]
        [("self", .bool false), ("process", .bool false)]) "self" :=
  C10_order_sensitive_on_conflicts.1 [("self", .bool false), ("process", .bool false)]
    [("window", .bool true), ("self", .bool false)]
    (by
      intro x mn mb hn hb
      by_cases h1 : "self" = x
      · subst h1
        simp [getOwn] at hn hb
        rw [← hn, ← hb]
      · by_cases h2 : "process" = x
        · subst h2
          simp [getOwn] at hb
        · simp [getOwn, h1, h2] at hn)
    "self"

/-! ## The ignore patterns -/

/-- C6: under the matcher above, the ignore patterns of the configuration
ignore `build/dist/index.js` and `packages/x/node_modules/y` and do not ignore
`src/main.ts`; a path is ignored exactly when one of its directory segments is
`dist` or `node_modules`. -/
theorem C6_ignore_matches :
    isIgnored ignoresFragment "build/dist/index.js" = true ∧
    isIgnored ignoresFragment "packages/x/node_modules/y" = true ∧
    isIgnored ignoresFragment "src/main.ts" = false ∧
    ∀ path : String,
      isIgnored ignoresFragment path = true ↔
        "dist" ∈ directorySegments path ∨ "node_modules" ∈ directorySegments path := by
  refine ⟨by decide, by decide, by decide, ?_⟩
  intro path
  have h1 : parsePattern "**/dist/" =
      { segments := [.globstar, .literal "dist"], directory := true } := by decide
  have h2 : parsePattern "**/node_modules/" =
      { segments := [.globstar, .literal "node_modules"], directory := true } := by decide
  have h3 : ignorePatterns ignoresFragment = ["**/dist/", "**/node_modules/"] := by decide
  simp only [isIgnored, h3, List.any_cons, List.any_nil, Bool.or_false, Bool.or_eq_true, h1, h2,
    patternIgnores_directory]

/-! ## Determinism -/

/-- C7: building the configuration list is deterministic. Two evaluations of
the file, in any two heaps, from imported values that are structurally equal
(baseline fragment, TypeScript bundle, node set, browser set) export lists of
the same length whose fragments are structurally equal, position by position,
whatever else the two heaps hold. In particular a second evaluation in the
same process, from the same imports (no reference in them dangling), exports a
list that is structurally equal to the first one, though not the same list:
its new fragments are other objects. And what the exported list is, read
structurally, is given by the four imports alone: when they read as `js`,
`ts`, `node` and `browser`, the list reads as `eslintConfig js ts node
browser`. -/
theorem C7_deterministic :
    (∀ (h1 h2 : Heap) (js1 js2 : HValue) (ts1 ts2 : List HValue) (n1 n2 b1 b2 : HProps),
      (∀ d, structEq d h1 h2 js1 js2 = true) →
      (∀ d, valuesEq d h1 h2 ts1 ts2 = true) →
      (∀ d, propsEq d h1 h2 n1 n2 = true) →
      (∀ d, propsEq d h1 h2 b1 b2 = true) →
      (evalConfig h1 js1 ts1 n1 b1).1.length = (evalConfig h2 js2 ts2 n2 b2).1.length ∧
      ∀ d, valuesEq d (evalConfig h1 js1 ts1 n1 b1).2 (evalConfig h2 js2 ts2 n2 b2).2
        (evalConfig h1 js1 ts1 n1 b1).1 (evalConfig h2 js2 ts2 n2 b2).1 = true) ∧
    (∀ (h : Heap) (js : HValue) (ts : List HValue) (n b : HProps),
      (∀ d, structEq d h h js js = true) →
      (∀ d, valuesEq d h h ts ts = true) →
      (∀ d, propsEq d h h n n = true) →
      (∀ d, propsEq d h h b b = true) →
      (evalConfig h js ts n b).1 ≠ (evalConfig (evalConfig h js ts n b).2 js ts n b).1 ∧
      ∀ d, valuesEq d (evalConfig (evalConfig h js ts n b).2 js ts n b).2
        (evalConfig (evalConfig h js ts n b).2 js ts n b).2
        (evalConfig h js ts n b).1
        (evalConfig (evalConfig h js ts n b).2 js ts n b).1 = true) ∧
    (∀ (h : Heap) (jsRef : HValue) (tsRefs : List HValue) (n b : HProps)
        (js : JSValue) (ts : List JSValue) (node browser : Props),
      (∀ d, denotes d h jsRef js = true) →
      (∀ d, valuesDenote d h tsRefs ts = true) →
      (∀ d, propsDenote d h n node = true) →
      (∀ d, propsDenote d h b browser = true) →
      ∀ d, valuesDenote d (evalConfig h jsRef tsRefs n b).2 (evalConfig h jsRef tsRefs n b).1
        (eslintConfig js ts node browser) = true) := by
  refine ⟨?_, ?_, ?_⟩
  · intro h1 h2 js1 js2 ts1 ts2 n1 n2 b1 b2 hjs hts hn hb
    have key := evalConfig_structEq h1 h2 js1 js2 ts1 ts2 n1 n2 b1 b2 hjs hts hn hb
    exact ⟨allPairs_length _ _ _ (key 0), key⟩
  · intro h js ts n b hjs hts hn hb
    constructor
    · intro heq
      rw [evalConfig_eq_fst, evalConfig_eq_fst, evalConfig_length_snd] at heq
      have h2 := List.append_cancel_left (List.tail_eq_of_cons_eq heq)
      simp at h2
    · intro d
      have key := evalConfig_structEq h (evalConfig h js ts n b).2 js js ts ts n n b b
        (fun d => by
          have := structEq_append d h h [] (newCells h.length n b) js js (hjs d)
          rwa [List.append_nil, ← evalConfig_eq_snd] at this)
        (fun d => by
          have := valuesEq_append d h h [] (newCells h.length n b) ts ts (hts d)
          rwa [List.append_nil, ← evalConfig_eq_snd] at this)
        (fun d => by
          have := propsEq_append d h h [] (newCells h.length n b) n n (hn d)
          rwa [List.append_nil, ← evalConfig_eq_snd] at this)
        (fun d => by
          have := propsEq_append d h h [] (newCells h.length n b) b b (hb d)
          rwa [List.append_nil, ← evalConfig_eq_snd] at this)
        d
      have lift := valuesEq_append d (evalConfig h js ts n b).2
        (evalConfig (evalConfig h js ts n b).2 js ts n b).2
        (newCells (evalConfig h js ts n b).2.length n b) [] _ _ key
      rwa [List.append_nil, ← evalConfig_eq_snd] at lift
  · intro h jsRef tsRefs n b js ts node browser hjs hts hn hb d
    exact evalConfig_denotes_eslintConfig h jsRef tsRefs n b js ts node browser hjs hts hn hb d

/-- C7, at two heaps that hold the same baseline fragment at different
addresses, next to other content: the two exported lists are structurally
equal to depth 4; evaluating twice in the first heap gives two lists that
differ and are structurally equal to depth 4; and the list built in the first
heap reads as the list of `eslintConfig`, to depth 5. -/
theorem C7_deterministic_witness :
    valuesEq 4
      (evalConfig [.object [("rules", .ref 1)], .object [("semi", .str "error")]]
        (.ref 0) [.ref 1] [("process", .bool false)] [("window", .bool true)]).2
      (evalConfig [.array [], .object [("semi", .str "error")], .object [("rules", .ref 1)]]
        (.ref 2) [.ref 1] [("process", .bool false)] [("window", .bool true)]).2
      (evalConfig [.object [("rules", .ref 1)], .object [("semi", .str "error")]]
        (.ref 0) [.ref 1] [("process", .bool false)] [("window", .bool true)]).1
      (evalConfig [.array [], .object [("semi", .str "error")], .object [("rules", .ref 1)]]
        (.ref 2) [.ref 1] [("process", .bool false)] [("window", .bool true)]).1 = true ∧
    ((evalConfig [.object [("rules", .ref 1)], .object [("semi", .str "error")]]
        (.ref 0) [.ref 1] [("process", .bool false)] [("window", .bool true)]).1 ≠
      (evalConfig
        (evalConfig [.object [("rules", .ref 1)], .object [("semi", .str "error")]]
          (.ref 0) [.ref 1] [("process", .bool false)] [("window", .bool true)]).2
        (.ref 0) [.ref 1] [("process", .bool false)] [("window", .bool true)]).1 ∧
      valuesEq 4
        (evalConfig
          (evalConfig [.object [("rules", .ref 1)], .object [("semi", .str "error")]]
            (.ref 0) [.ref 1] [("process", .bool false)] [("window", .bool true)]).2
          (.ref 0) [.ref 1] [("process", .bool false)] [("window", .bool true)]).2
        (evalConfig
          (evalConfig [.object [("rules", .ref 1)], .object [("semi", .str "error")]]
            (.ref 0) [.ref 1] [("process", .bool false)] [("window", .bool true)]).2
          (.ref 0) [.ref 1] [("process", .bool false)] [("window", .bool true)]).2
        (evalConfig [.object [("rules", .ref 1)], .object [("semi", .str "error")]]
          (.ref 0) [.ref 1] [("process", .bool false)] [("window", .bool true)]).1
        (evalConfig
          (evalConfig [.object [("rules", .ref 1)], .object [("semi", .str "error")]]
            (.ref 0) [.ref 1] [("process", .bool false)] [("window", .bool true)]).2
          (.ref 0) [.ref 1] [("process", .bool false)] [("window", .bool true)]).1 = true) ∧
    valuesDenote 5
      (evalConfig [.object [("rules", .ref 1)], .object [("semi", .str "error")]]
        (.ref 0) [.ref 1] [("process", .bool false)] [("window", .bool true)]).2
      (evalConfig [.object [("rules", .ref 1)], .object [("semi", .str "error")]]
        (.ref 0) [.ref 1] [("process", .bool false)] [("window", .bool true)]).1
      (eslintConfig (.object [("rules", .object [("semi", .str "error")])])
        [.object [("semi", .str "error")]]
        [("process", .bool false)] [("window", .bool true)]) = true :=
  ⟨(C7_deterministic.1
      [.object [("rules", .ref 1)], .object [("semi", .str "error")]]
      [.array [], .object [("semi", .str "error")], .object [("rules", .ref 1)]]
      (.ref 0) (.ref 2) [.ref 1] [.ref 1]
      [("process", .bool false)] [("process", .bool false)]
      [("window", .bool true)] [("window", .bool true)]
      (fun d => by
        rcases d with _ | _ | d
        · rfl
        · rfl
        · simp [structEq, sameAt, allPairs, structEq_str])
      (fun d => by
        rcases d with _ | d
        · rfl
        · simp [valuesEq, structEq, sameAt, allPairs, structEq_str])
      (fun d => by simp [propsEq, allPairs, structEq_bool])
      (fun d => by simp [propsEq, allPairs, structEq_bool])).2 4,
    ⟨(C7_deterministic.2.1
        [.object [("rules", .ref 1)], .object [("semi", .str "error")]]
        (.ref 0) [.ref 1] [("process", .bool false)] [("window", .bool true)]
        (fun d => by
          rcases d with _ | _ | d
          · rfl
          · rfl
          · simp [structEq, sameAt, allPairs, structEq_str])
        (fun d => by
          rcases d with _ | d
          · rfl
          · simp [valuesEq, structEq, sameAt, allPairs, structEq_str])
        (fun d => by simp [propsEq, allPairs, structEq_bool])
        (fun d => by simp [propsEq, allPairs, structEq_bool])).1,
      (C7_deterministic.2.1
        [.object [("rules", .ref 1)], .object [("semi", .str "error")]]
        (.ref 0) [.ref 1] [("process", .bool false)] [("window", .bool true)]
        (fun d => by
          rcases d with _ | _ | d
          · rfl
          · rfl
          · simp [structEq, sameAt, allPairs, structEq_str])
        (fun d => by
          rcases d with _ | d
          · rfl
          · simp [valuesEq, structEq, sameAt, allPairs, structEq_str])
        (fun d => by simp [propsEq, allPairs, structEq_bool])
        (fun d => by simp [propsEq, allPairs, structEq_bool])).2 4⟩,
    C7_deterministic.2.2
      [.object [("rules", .ref 1)], .object [("semi", .str "error")]]
      (.ref 0) [.ref 1] [("process", .bool false)] [("window", .bool true)]
      (.object [("rules", .object [("semi", .str "error")])])
      [.object [("semi", .str "error")]]
      [("process", .bool false)] [("window", .bool true)]
      (fun d => by
        rcases d with _ | _ | d
        · rfl
        · rfl
        · simp [denotes, denotesAt, allPairs, denotes_str])
      (fun d => by
        rcases d with _ | d
        · rfl
        · simp [valuesDenote, denotes, denotesAt, allPairs, denotes_str])
      (fun d => by simp [propsDenote, allPairs, denotes_bool])
      (fun d => by simp [propsDenote, allPairs, denotes_bool])
      5⟩

end EslintConfig
